import Mathlib

/-!
# Verification of the obsidian-neovim synchronization core

A shallow embedding of the bidirectional synchronization layer of the
obsidian-neovim plugin, together with proofs about the properties its
specification states.

The host editor document is modelled as its list of lines, each line a
list of characters containing no newline character.  This matches the
Obsidian/CodeMirror line model used throughout the source
(`ed.lineCount()`, `ed.getLine(n)`, and `split("\n")` in the test mock):
a document always has at least one line, and the empty document is the
single empty line.

Embedded source files:
* `src/sync.ts` — `SyncApplier` (`enqueue`, `flush`, `applyEvent`),
  `clamp`, `posAtDocEnd`, `endPosForExclusiveLineIndex` (the second,
  authoritative historical variant of the applier);
* `src/cm6.ts` — `translateKey` and its helpers `isModifierOnly`,
  `functionKeyToTerm`, `baseKeyToTermcode`, `ctrlName`, `altName`;
* `src/nvim.ts` — the `nvim_buf_lines_event` notification handler of
  `NvimHost.start`, the `nvim.onCursor` handler, and the two throttled
  fallback-poll paths `handleKeyDrivenSync` and
  `maybeScheduleFallbackSync` of `NeovimBackendPlugin`.
-/

namespace ObsNvim

/-- A host-editor line: characters of the line, newline excluded. -/
abbrev Line := List Char

/-- A host-editor document: its list of lines.  A real document always
has at least one line (`"".split("\n") = [""]`). -/
abbrev Doc := List Line

/-- An Obsidian editor position `{line, ch}` (both 0-based). -/
structure EdPos where
  line : Nat
  ch : Nat
deriving DecidableEq, Repr

/-- Length of line `i` of the document, with the `getLine(i) ?? ""`
behaviour of the bridge: a missing line reads as the empty string. -/
def lineLen (doc : Doc) (i : Nat) : Nat := (doc.getD i []).length

/-- Split a character sequence at newline characters, CodeMirror /
JavaScript `split("\n")` style: the result always has at least one
element, and `n` newline characters produce `n + 1` lines. -/
def splitNl : List Char → List Line
  | [] => [[]]
  | c :: rest =>
    if c = '\n' then [] :: splitNl rest
    else (c :: (splitNl rest).headI) :: (splitNl rest).tail

/-- Join lines with newline characters, JavaScript `join("\n")` style. -/
def joinLines : List Line → List Char
  | [] => []
  | [l] => l
  | l :: ls => l ++ '\n' :: joinLines ls

theorem splitNl_ne_nil (cs : List Char) : splitNl cs ≠ [] := by
  cases cs with
  | nil => simp [splitNl]
  | cons c rest =>
    by_cases h : c = '\n' <;> simp [splitNl, h]

theorem splitNl_newline_free_append (l : Line) (cs : List Char)
    (h : '\n' ∉ l) :
    splitNl (l ++ cs) = (l ++ (splitNl cs).headI) :: (splitNl cs).tail := by
  induction l with
  | nil =>
    simp only [List.nil_append]
    rcases hr : splitNl cs with _ | ⟨m, ms⟩
    · exact absurd hr (splitNl_ne_nil cs)
    · simp
  | cons c l ih =>
    have hc : c ≠ '\n' := fun hc => h (by simp [hc])
    have hl : '\n' ∉ l := fun hl => h (by simp [hl])
    rw [List.cons_append]
    show splitNl (c :: (l ++ cs)) = _
    rw [splitNl, if_neg hc, ih hl]
    simp

/-- Splitting the newline-join of a nonempty list of newline-free lines
recovers the lines. -/
theorem splitNl_joinLines (L : List Line) (hne : L ≠ [])
    (hfree : ∀ l ∈ L, '\n' ∉ l) :
    splitNl (joinLines L) = L := by
  induction L with
  | nil => exact absurd rfl hne
  | cons l ls ih =>
    rcases ls with _ | ⟨l2, ls2⟩
    · have hl : '\n' ∉ l := hfree l (by simp)
      have : splitNl (l ++ []) = (l ++ (splitNl []).headI) :: (splitNl []).tail :=
        splitNl_newline_free_append l [] hl
      simpa [joinLines, splitNl] using this
    · have hl : '\n' ∉ l := hfree l (by simp)
      have hjoin : joinLines (l :: l2 :: ls2) = l ++ '\n' :: joinLines (l2 :: ls2) := rfl
      rw [hjoin, splitNl_newline_free_append l _ hl]
      have hrest : splitNl ('\n' :: joinLines (l2 :: ls2))
          = [] :: splitNl (joinLines (l2 :: ls2)) := by
        simp [splitNl]
      rw [hrest]
      have ihr : splitNl (joinLines (l2 :: ls2)) = l2 :: ls2 :=
        ih (by simp) (fun x hx => hfree x (by simp [hx]))
      simp [ihr]

/-- `Editor.replaceRange(text, from, to)` of the host editor, as the
specification describes it in §6: a character-range splice between the
two `{line, ch}` positions, deleting the newline between the two lines
when they differ.  CodeMirror raises a `RangeError` for a position
outside the document or a reversed range; through the bridge's
`try/catch` that failure leaves the document unchanged, modelled here by
`none`. -/
def replaceRange (doc : Doc) (fmP toP : EdPos) (t : List Char) : Option Doc :=
  if fmP.line < doc.length ∧ toP.line < doc.length
      ∧ fmP.ch ≤ lineLen doc fmP.line ∧ toP.ch ≤ lineLen doc toP.line
      ∧ (fmP.line < toP.line ∨ (fmP.line = toP.line ∧ fmP.ch ≤ toP.ch)) then
    some (doc.take fmP.line
      ++ splitNl ((doc.getD fmP.line []).take fmP.ch ++ t
           ++ (doc.getD toP.line []).drop toP.ch)
      ++ doc.drop (toP.line + 1))
  else
    none

/-! ## The Sync Applier (`src/sync.ts`, authoritative variant) -/

/-- The payload of an `nvim_buf_lines_event` (`NvimOnLinesEvent` in
`src/nvim.ts`): `firstline` inclusive, `lastline` exclusive, and the
replacement lines. -/
structure NvimOnLinesEvent where
  buf : Int
  changedtick : Int
  firstline : Int
  lastline : Int
  linedata : List Line
deriving DecidableEq, Repr

/-- `clamp(n, min, max)` from `src/sync.ts`:
`Math.max(min, Math.min(max, n))`. -/
def clamp (n mn mx : Int) : Int := max mn (min mx n)

/-- `posAtDocEnd` from `src/sync.ts`: the absolute end of the document
(last line, column = that line's length), or `(0,0)` for a lineless
document. -/
def posAtDocEnd (doc : Doc) : EdPos :=
  if doc.length = 0 then ⟨0, 0⟩
  else ⟨doc.length - 1, lineLen doc (doc.length - 1)⟩

/-- `endPosForExclusiveLineIndex` from `src/sync.ts`: convert the
engine's exclusive end line index into a CodeMirror position at the end
of the affected content. -/
def endPosForExclusiveLineIndex (doc : Doc) (toLineExclusive : Int) : EdPos :=
  if toLineExclusive ≤ 0 then ⟨0, 0⟩
  else if toLineExclusive ≥ doc.length then posAtDocEnd doc
  else ⟨toLineExclusive.toNat - 1, lineLen doc (toLineExclusive.toNat - 1)⟩

/-- The `(from, to)` range computed by `SyncApplier.applyEvent` in
`src/sync.ts` (lines 146–172): clamp `firstline` and `lastline` into
`[0, max(0, lineCount)]`, start at `(clampedFirst, 0)`, end via
`endPosForExclusiveLineIndex`. -/
def applyEventRange (doc : Doc) (ev : NvimOnLinesEvent) : EdPos × EdPos :=
  let lc : Int := doc.length
  let fromLine := clamp ev.firstline 0 (max 0 lc)
  let toLine := clamp ev.lastline 0 (max 0 lc)
  (⟨fromLine.toNat, 0⟩, endPosForExclusiveLineIndex doc toLine)

/-- `SyncApplier.applyEvent` of `src/sync.ts`: replace the computed
range with `linedata.join("\n")`.  A failing host `replaceRange` is
caught by the bridge and leaves the document unchanged. -/
def applyEvent (doc : Doc) (ev : NvimOnLinesEvent) : Doc :=
  let r := applyEventRange doc ev
  let insert := joinLines ev.linedata
  (replaceRange doc r.1 r.2 insert).getD doc

/-- The apply loop of `SyncApplier.flush`: captured events are applied
to the host document in arrival order. -/
def applyEvents (doc : Doc) (evs : List NvimOnLinesEvent) : Doc :=
  evs.foldl applyEvent doc

/-! ## Helper lemmas about the range computation -/

theorem clamp_of_between {n mn mx : Int} (h1 : mn ≤ n) (h2 : n ≤ mx) :
    clamp n mn mx = n := by
  unfold clamp; omega

/-- For an exclusive end index in `[1, lineCount]`, both the
`posAtDocEnd` branch and the interior branch of
`endPosForExclusiveLineIndex` give the end of line `index - 1`. -/
theorem endPos_eq_endOfLine (doc : Doc) (t : Int) (h1 : 1 ≤ t)
    (h2 : t ≤ (doc.length : Int)) :
    endPosForExclusiveLineIndex doc t
      = ⟨t.toNat - 1, lineLen doc (t.toNat - 1)⟩ := by
  unfold endPosForExclusiveLineIndex posAtDocEnd
  rw [if_neg (by omega)]
  by_cases hge : (doc.length : Int) ≤ t
  · have hlen : doc.length ≠ 0 := by omega
    have htn : t.toNat = doc.length := by omega
    rw [if_pos hge, if_neg hlen, htn]
  · rw [if_neg (by omega)]

/-- Replacing from the start of line `f` through the end of line `L - 1`
with the newline-join of the replacement lines splices the lines
`[f, L)` out and the replacement lines in. -/
theorem replaceRange_full_lines (doc : Doc) (f L : Nat) (t : List Line)
    (hfL : f < L) (hL : L ≤ doc.length) (hne : t ≠ [])
    (hfree : ∀ l ∈ t, '\n' ∉ l) :
    replaceRange doc ⟨f, 0⟩ ⟨L - 1, lineLen doc (L - 1)⟩ (joinLines t)
      = some (doc.take f ++ t ++ doc.drop L) := by
  have hL1 : 1 ≤ L := Nat.one_le_iff_ne_zero.mpr (by omega)
  unfold replaceRange
  dsimp only
  rw [if_pos ?cond]
  case cond =>
    refine ⟨by omega, by omega, Nat.zero_le _, le_refl _, ?_⟩
    rcases (by omega : f < L - 1 ∨ f = L - 1) with h | h
    · exact Or.inl h
    · exact Or.inr ⟨h, Nat.zero_le _⟩
  have hdrop : (doc.getD (L - 1) []).drop (lineLen doc (L - 1)) = [] :=
    List.drop_length _
  rw [List.take_zero, hdrop, List.nil_append, List.append_nil,
    splitNl_joinLines t hne hfree]
  have : L - 1 + 1 = L := by omega
  rw [this]

/-- **C2.** For every `LineChangeEvent` with non-empty
`replacementLines` and `lastLine > firstLine`, both within the host
document's line bounds, the Sync Applier replaces exactly the lines
`[firstLine, lastLine)` with the replacement lines and leaves every
line outside that range byte-identical; and the spec's end-to-end
scenario: host document `"Line 1\nLine 2\nLine 3"`, event
`{firstLine: 1, lastLine: 2, replacementLines: ["Line 2 MODIFIED"]}`,
gives `"Line 1\nLine 2 MODIFIED\nLine 3"` after flush.
(Replacement lines are lines, hence newline-free.) -/
theorem c2_replacement_exact :
    (∀ (doc : Doc) (ev : NvimOnLinesEvent),
      0 ≤ ev.firstline → ev.firstline < ev.lastline →
      ev.lastline ≤ (doc.length : Int) →
      ev.linedata ≠ [] → (∀ l ∈ ev.linedata, '\n' ∉ l) →
      applyEvent doc ev
        = doc.take ev.firstline.toNat ++ ev.linedata
            ++ doc.drop ev.lastline.toNat)
    ∧ applyEvents ["Line 1".toList, "Line 2".toList, "Line 3".toList]
        [{ buf := 1, changedtick := 2, firstline := 1, lastline := 2,
           linedata := ["Line 2 MODIFIED".toList] }]
      = ["Line 1".toList, "Line 2 MODIFIED".toList, "Line 3".toList] := by
  refine ⟨?_, by decide⟩
  intro doc ev h0 hfl hll hne hfree
  have hfrom : clamp ev.firstline 0 (max 0 (doc.length : Int)) = ev.firstline :=
    clamp_of_between h0 (by omega)
  have hto : clamp ev.lastline 0 (max 0 (doc.length : Int)) = ev.lastline :=
    clamp_of_between (by omega) (by omega)
  have hfL : ev.firstline.toNat < ev.lastline.toNat := by omega
  have hLlen : ev.lastline.toNat ≤ doc.length := by omega
  simp only [applyEvent, applyEventRange, hfrom, hto,
    endPos_eq_endOfLine doc ev.lastline (by omega) hll,
    replaceRange_full_lines doc _ _ ev.linedata hfL hLlen hne hfree,
    Option.getD_some]

/-- Witness for C2 at the spec's own end-to-end input. -/
theorem c2_witness :
    applyEvent ["Line 1".toList, "Line 2".toList, "Line 3".toList]
        { buf := 1, changedtick := 2, firstline := 1, lastline := 2,
          linedata := ["Line 2 MODIFIED".toList] }
      = ["Line 1".toList, "Line 2 MODIFIED".toList, "Line 3".toList] := by
  have h := c2_replacement_exact.1
    ["Line 1".toList, "Line 2".toList, "Line 3".toList]
    { buf := 1, changedtick := 2, firstline := 1, lastline := 2,
      linedata := ["Line 2 MODIFIED".toList] }
    (by decide) (by decide) (by decide) (by decide) (by decide)
  simpa using h

/-! ## C1: the exclusive-to-inclusive end-position conversion -/

/-- `ed.getLine(i) ?? ""` through the bridge, for a possibly negative
JavaScript index: out-of-range lines read as the empty string. -/
def getLineJS (doc : Doc) (i : Int) : Line :=
  if 0 ≤ i ∧ i < (doc.length : Int) then doc.getD i.toNat [] else []

/-- The end-position formula exactly as the specification sentence
states it: "if `lastLine` is at or beyond the line count, the end
position is the absolute end of the document; otherwise the end
position is the end-of-line position (line length as the column) of
line `lastLine - 1`".  Stated over `Int` coordinates because the
sentence's `lastLine - 1` can be negative. -/
def specSentenceEndPos (doc : Doc) (lastLine : Int) : Int × Int :=
  if lastLine ≥ (doc.length : Int) then
    (if doc.length = 0 then (0, 0)
     else ((doc.length : Int) - 1,
       ((getLineJS doc ((doc.length : Int) - 1)).length : Int)))
  else (lastLine - 1, ((getLineJS doc (lastLine - 1)).length : Int))

/-- **C1 counterexample.** For the clamped exclusive `lastLine = 0` on
the one-line document `"ab"`, the code's conversion returns `(0, 0)`
while the claimed formula's "otherwise" branch returns line
`lastLine - 1 = -1`: the claim is false at this input. -/
theorem c1_counterexample :
    (((endPosForExclusiveLineIndex ["ab".toList] 0).line : Int),
      ((endPosForExclusiveLineIndex ["ab".toList] 0).ch : Int)) = (0, 0)
    ∧ specSentenceEndPos ["ab".toList] 0 = (-1, 0)
    ∧ ((0 : Int), (0 : Int)) ≠ ((-1 : Int), (0 : Int)) := by
  decide

/-- **C1 (amended).** The replaced range of `applyEvent` starts at
`(clamped firstLine, column 0)`; its end position follows the
conversion with the zero case made explicit: if the clamped exclusive
`lastLine` is `0`, the end position is `(0, 0)`; if it is at or beyond
the line count, the end position is the absolute end of the document;
otherwise it is the end-of-line position of line `lastLine - 1`. -/
theorem c1_endpos_conversion_amended (doc : Doc) (ev : NvimOnLinesEvent) :
    (applyEventRange doc ev).1
      = ⟨(clamp ev.firstline 0 (max 0 (doc.length : Int))).toNat, 0⟩
    ∧ (clamp ev.lastline 0 (max 0 (doc.length : Int)) = 0 →
        (applyEventRange doc ev).2 = ⟨0, 0⟩)
    ∧ (1 ≤ clamp ev.lastline 0 (max 0 (doc.length : Int)) →
        (doc.length : Int) ≤ clamp ev.lastline 0 (max 0 (doc.length : Int)) →
        (applyEventRange doc ev).2 = posAtDocEnd doc)
    ∧ (1 ≤ clamp ev.lastline 0 (max 0 (doc.length : Int)) →
        clamp ev.lastline 0 (max 0 (doc.length : Int)) < (doc.length : Int) →
        (applyEventRange doc ev).2
          = ⟨(clamp ev.lastline 0 (max 0 (doc.length : Int))).toNat - 1,
              lineLen doc
                ((clamp ev.lastline 0 (max 0 (doc.length : Int))).toNat - 1)⟩) := by
  refine ⟨rfl, ?_, ?_, ?_⟩
  · intro h
    simp only [applyEventRange, endPosForExclusiveLineIndex]
    rw [if_pos (by omega)]
  · intro h1 h2
    simp only [applyEventRange, endPosForExclusiveLineIndex]
    rw [if_neg (by omega), if_pos (by omega)]
  · intro h1 h2
    simp only [applyEventRange, endPosForExclusiveLineIndex]
    rw [if_neg (by omega), if_neg (by omega)]

/-- Witness for C1 (amended) on a two-line document with
`lastLine = 1` (interior branch). -/
theorem c1_witness :
    (1 : Int) ≤ clamp 1 0 (max 0 ((2 : Nat) : Int))
    ∧ clamp 1 0 (max 0 ((2 : Nat) : Int)) < ((2 : Nat) : Int)
    ∧ (applyEventRange ["ab".toList, "cd".toList]
        { buf := 1, changedtick := 1, firstline := 0, lastline := 1,
          linedata := [] }).2 = ⟨0, 2⟩ := by
  refine ⟨by decide, by decide, ?_⟩
  have h := (c1_endpos_conversion_amended ["ab".toList, "cd".toList]
    { buf := 1, changedtick := 1, firstline := 0, lastline := 1,
      linedata := [] }).2.2.2 (by decide) (by decide)
  simpa using h

/-! ## C3: pure insertion events (`firstLine == lastLine`) -/

/-- **C3 (code bug).** A pure insertion event at an interior line
computes a reversed host range — start `(1, 0)` strictly after end
`(0, 6)` — so the host `replaceRange` fails and the document is left
unchanged instead of gaining the inserted lines; and insertion at line
0 of a one-line document merges the replacement into the existing line
instead of strictly inserting before it. -/
theorem c3_insertion_failing_input :
    (applyEventRange ["Line 1".toList, "Line 2".toList]
        { buf := 1, changedtick := 3, firstline := 1, lastline := 1,
          linedata := ["Inserted Line A".toList, "Inserted Line B".toList] }
      = (⟨1, 0⟩, ⟨0, 6⟩))
    ∧ (applyEvent ["Line 1".toList, "Line 2".toList]
        { buf := 1, changedtick := 3, firstline := 1, lastline := 1,
          linedata := ["Inserted Line A".toList, "Inserted Line B".toList] }
      = ["Line 1".toList, "Line 2".toList])
    ∧ (2 : Nat) ≠ 2 + 2
    ∧ (applyEvent ["abc".toList]
        { buf := 1, changedtick := 3, firstline := 0, lastline := 0,
          linedata := ["X".toList] }
      = ["Xabc".toList]) := by
  refine ⟨by decide, by decide, by decide, by decide⟩

/-! ## C4: pure deletion events (empty `replacementLines`) -/

/-- **C4 (code bug).** Deleting line 1 of `"Line 1\nLine 2\nLine 3"`
via the event `{firstline: 1, lastline: 2, linedata: []}` replaces only
the characters of line 1, leaving a residual blank line: the document
becomes `"Line 1\n\nLine 3"` (still 3 lines) instead of
`"Line 1\nLine 3"`. -/
theorem c4_deletion_failing_input :
    (applyEvent ["Line 1".toList, "Line 2".toList, "Line 3".toList]
        { buf := 1, changedtick := 4, firstline := 1, lastline := 2,
          linedata := [] }
      = ["Line 1".toList, [], "Line 3".toList])
    ∧ (["Line 1".toList, ([] : Line), "Line 3".toList]
        ≠ ["Line 1".toList, "Line 3".toList]) := by
  refine ⟨by decide, by decide⟩

/-! ## The Key Translator (`src/cm6.ts`) -/

/-- A host `KeyboardEvent`, restricted to the fields `translateKey`
reads. -/
structure KeyEvt where
  key : String
  ctrlKey : Bool
  altKey : Bool
  metaKey : Bool
  shiftKey : Bool
  isComposing : Bool
deriving DecidableEq, Repr

/-- `isModifierOnly` from `src/cm6.ts`. -/
def isModifierOnly (e : KeyEvt) : Bool :=
  e.key == "Shift" || e.key == "Control" || e.key == "Alt" || e.key == "Meta"

/-- `functionKeyToTerm` from `src/cm6.ts`: keys matching `/^F\d+$/`
become `<F…>`. -/
def functionKeyToTerm (key : String) : Option String :=
  match key.data with
  | 'F' :: rest =>
    if !rest.isEmpty && rest.all Char.isDigit then some ("<" ++ key ++ ">")
    else none
  | _ => none

/-- The named-key table of `baseKeyToTermcode` in `src/cm6.ts`. -/
def baseKeyTable (key : String) : Option String :=
  match key with
  | "Escape" => some "<Esc>"
  | "Enter" => some "<CR>"
  | "Backspace" => some "<BS>"
  | "Tab" => some "<Tab>"
  | "ArrowUp" => some "<Up>"
  | "ArrowDown" => some "<Down>"
  | "ArrowLeft" => some "<Left>"
  | "ArrowRight" => some "<Right>"
  | "Home" => some "<Home>"
  | "End" => some "<End>"
  | "PageUp" => some "<PageUp>"
  | "PageDown" => some "<PageDown>"
  | "Insert" => some "<Insert>"
  | "Delete" => some "<Del>"
  | _ => none

/-- `baseKeyToTermcode` from `src/cm6.ts`, branch order preserved:
single characters pass through, then function keys, then the shifted
Tab special case, then the named-key table. -/
def baseKeyToTermcode (key : String) (shift : Bool) : Option String :=
  if key.length = 1 then some key
  else
    match functionKeyToTerm key with
    | some fn => some fn
    | none =>
      if key == "Tab" && shift then some "<S-Tab>"
      else baseKeyTable key

/-- The single-letter branch of `ctrlName` in `src/cm6.ts`: lowercase,
then the historical terminal-control exceptions, then `<C-letter>`;
`none` when the character is not handled there (JS falls through). -/
def ctrlLetter (key : String) : Option String :=
  match key.data with
  | [ch] =>
    let c := ch.toLower
    if c = 'h' then some "<BS>"
    else if c = 'm' then some "<CR>"
    else if c = '[' then some "<Esc>"
    else if 'a' ≤ c ∧ c ≤ 'z' then some ("<C-" ++ String.mk [c] ++ ">")
    else none
  | _ => none

/-- The `specials` table of `ctrlName` in `src/cm6.ts`. -/
def ctrlSpecials (key : String) : Option String :=
  match key with
  | "ArrowUp" => some "<C-Up>"
  | "ArrowDown" => some "<C-Down>"
  | "ArrowLeft" => some "<C-Left>"
  | "ArrowRight" => some "<C-Right>"
  | "Home" => some "<C-Home>"
  | "End" => some "<C-End>"
  | "PageUp" => some "<C-PageUp>"
  | "PageDown" => some "<C-PageDown>"
  | "Backspace" => some "<C-BS>"
  | "Enter" => some "<C-CR>"
  | "Tab" => some "<C-Tab>"
  | _ => none

/-- `ctrlName` from `src/cm6.ts`. -/
def ctrlName (key : String) : String :=
  match ctrlLetter key with
  | some s => s
  | none =>
    match ctrlSpecials key with
    | some s => s
    | none => "<C-" ++ key ++ ">"

/-- `altName` from `src/cm6.ts`: single characters wrap as `<M-…>`;
named keys re-wrap the inner name of their bracketed base form. -/
def altName (key : String) (shift : Bool) : String :=
  if key.length = 1 then "<M-" ++ key ++ ">"
  else
    match baseKeyToTermcode key shift with
    | some b =>
      if b.startsWith "<" && b.endsWith ">" then
        "<M-" ++ (b.drop 1).dropRight 1 ++ ">"
      else "<M-" ++ key ++ ">"
    | none => "<M-" ++ key ++ ">"

/-- `translateKey` from `src/cm6.ts` (lines 94–130). -/
def translateKey (e : KeyEvt) : Option String :=
  if e.isComposing then none
  else if isModifierOnly e then none
  else
    let altOrMeta := e.altKey || e.metaKey
    if e.ctrlKey && altOrMeta then
      if e.key.length = 1 then some ("<C-M-" ++ e.key ++ ">")
      else
        let base := (baseKeyToTermcode e.key e.shiftKey).getD e.key
        if base.startsWith "<" && base.endsWith ">" then
          some ("<C-M-" ++ (base.drop 1).dropRight 1 ++ ">")
        else some ("<C-M-" ++ base ++ ">")
    else if e.ctrlKey then some (ctrlName e.key)
    else if altOrMeta then some (altName e.key e.shiftKey)
    else
      match baseKeyToTermcode e.key e.shiftKey with
      | some b => some b
      | none => if e.key.length = 1 then some e.key else none

/-- **C5.** `translateKey` maps the documented literals of its
named-key table to their symbolic strings — `Escape ↦ <Esc>`,
shifted Tab `↦ <S-Tab>`, Ctrl+a `↦ <C-a>`, Ctrl+h `↦ <BS>`,
Ctrl+m `↦ <CR>`, Ctrl+[ `↦ <Esc>`, `F5 ↦ <F5>` — and every
modifier-only event, under every combination of flags, as well as
every mid-composition event, yields `null`. -/
theorem c5_translate_key_table :
    translateKey ⟨"Escape", false, false, false, false, false⟩ = some "<Esc>"
    ∧ translateKey ⟨"Tab", false, false, false, true, false⟩ = some "<S-Tab>"
    ∧ translateKey ⟨"a", true, false, false, false, false⟩ = some "<C-a>"
    ∧ translateKey ⟨"h", true, false, false, false, false⟩ = some "<BS>"
    ∧ translateKey ⟨"m", true, false, false, false, false⟩ = some "<CR>"
    ∧ translateKey ⟨"[", true, false, false, false, false⟩ = some "<Esc>"
    ∧ translateKey ⟨"F5", false, false, false, false, false⟩ = some "<F5>"
    ∧ (∀ c a m s comp : Bool,
        translateKey ⟨"Shift", c, a, m, s, comp⟩ = none
        ∧ translateKey ⟨"Control", c, a, m, s, comp⟩ = none
        ∧ translateKey ⟨"Alt", c, a, m, s, comp⟩ = none
        ∧ translateKey ⟨"Meta", c, a, m, s, comp⟩ = none)
    ∧ (∀ e : KeyEvt, translateKey { e with isComposing := true } = none) := by
  refine ⟨by decide, by decide, by decide, by decide, by decide, by decide,
    by decide, by decide, ?_⟩
  intro e
  rfl

/-- **C10.** In Ctrl-only combinations (Ctrl held, neither Alt nor
Meta), `translateKey` never reads `shiftKey`: two events identical
except for the shift flag encode identically; and single letters are
lowercased, so Ctrl+Shift+A (key `"A"`) and Ctrl+a (key `"a"`) both
encode to `<C-a>`. -/
theorem c10_ctrl_shift_insensitive :
    (∀ (k : String) (comp s1 s2 : Bool),
      translateKey ⟨k, true, false, false, s1, comp⟩
        = translateKey ⟨k, true, false, false, s2, comp⟩)
    ∧ translateKey ⟨"A", true, false, false, true, false⟩ = some "<C-a>"
    ∧ translateKey ⟨"a", true, false, false, false, false⟩ = some "<C-a>" := by
  refine ⟨?_, by decide, by decide⟩
  intro k comp s1 s2
  cases comp <;> rfl

/-! ## The Cursor Reconciler (`src/nvim.ts`, `nvim.onCursor` handler) -/

/-- The cursor target computed by the `nvim.onCursor` handler of
`NeovimBackendPlugin.onload` (`src/nvim.ts` lines 645–662):
`clampedLine = max(0, min(line, max(0, lc - 1)))`,
`lineText = getLine(clampedLine) ?? ""`,
`clampedCh = max(0, min(col, lineText.length))`; the host cursor is set
to exactly this pair. -/
def onCursorClamp (doc : Doc) (line col : Int) : EdPos :=
  let lc : Int := doc.length
  let clampedLine := max 0 (min line (max 0 (lc - 1)))
  let lineText := doc.getD clampedLine.toNat []
  let clampedCh := max 0 (min col (lineText.length : Int))
  ⟨clampedLine.toNat, clampedCh.toNat⟩

/-- **C6.** The cursor reconciler clamps the engine-reported line into
`[0, lineCount - 1]` and the column into `[0, length of the clamped
line]`, leaves in-range coordinates unchanged, and on the spec's
3-line document whose line 2 has length 5 maps `{line: 10, column: 99}`
to exactly `{line: 2, ch: 5}`. -/
theorem c6_cursor_clamp :
    (∀ (doc : Doc) (line col : Int), doc ≠ [] →
      (onCursorClamp doc line col).line ≤ doc.length - 1
      ∧ (onCursorClamp doc line col).ch
          ≤ lineLen doc (onCursorClamp doc line col).line
      ∧ (0 ≤ line → line ≤ (doc.length : Int) - 1 →
          ((onCursorClamp doc line col).line : Int) = line)
      ∧ (0 ≤ col →
          col ≤ ((lineLen doc (onCursorClamp doc line col).line : Nat) : Int) →
          ((onCursorClamp doc line col).ch : Int) = col))
    ∧ onCursorClamp ["aaa".toList, "bb".toList, "abcde".toList] 10 99
        = ⟨2, 5⟩ := by
  refine ⟨?_, by decide⟩
  intro doc line col hne
  have hlc : 1 ≤ doc.length := List.length_pos.mpr hne
  simp only [onCursorClamp, lineLen]
  refine ⟨by omega, by omega, by omega, by omega⟩

/-- Witness for C6 at the spec's concrete input. -/
theorem c6_witness :
    (["aaa".toList, "bb".toList, "abcde".toList] : Doc) ≠ []
    ∧ (onCursorClamp ["aaa".toList, "bb".toList, "abcde".toList] 10 99).line
        ≤ (["aaa".toList, "bb".toList, "abcde".toList] : Doc).length - 1 :=
  ⟨by decide,
   (c6_cursor_clamp.1 ["aaa".toList, "bb".toList, "abcde".toList] 10 99
     (by decide)).1⟩

/-! ## The Change-Event Queue (`src/sync.ts`, `enqueue` / `flush`)

The queue discipline is modelled as a small-step system.  `flushStart`
is the prefix of `flush()` up to and including the swap (snapshot the
queue, replace it with an empty one, clear the scheduled flag): it
moves the live queue into `pending`, the captured snapshot being
applied.  `applyOne` applies the next captured event.  `enqueue`
appends to the live queue and sets the scheduled flag, as
`SyncApplier.enqueue` does; it may happen while `pending` is nonempty,
modelling an event arriving during the apply loop.  A flush cannot be
re-entered while one is mid-apply (the loop is synchronous), so
`flushStart` with a nonempty `pending` is a no-op. -/

/-- State of the Sync Applier's queue discipline. -/
structure QueueState where
  queue : List NvimOnLinesEvent
  scheduled : Bool
  pending : List NvimOnLinesEvent
  applied : List NvimOnLinesEvent
deriving DecidableEq, Repr

/-- One interleaving step of the queue system. -/
inductive QAction where
  | enqueue (ev : NvimOnLinesEvent)
  | flushStart
  | applyOne
deriving DecidableEq, Repr

/-- Step function: `enqueue` from `SyncApplier.enqueue`, `flushStart`
and `applyOne` from `SyncApplier.flush`. -/
def qStep (s : QueueState) : QAction → QueueState
  | .enqueue ev => { s with queue := s.queue ++ [ev], scheduled := true }
  | .flushStart =>
    if s.pending ≠ [] then s
    else if s.queue = [] then { s with scheduled := false }
    else
      { queue := [], scheduled := false, pending := s.queue,
        applied := s.applied }
  | .applyOne =>
    match s.pending with
    | [] => s
    | ev :: rest => { s with pending := rest, applied := s.applied ++ [ev] }

/-- Run a sequence of steps. -/
def qRun (s : QueueState) (acts : List QAction) : QueueState :=
  acts.foldl qStep s

/-- Initial state: empty queue, no flush scheduled. -/
def qInit : QueueState := ⟨[], false, [], []⟩

/-- The events enqueued by a step sequence, in arrival order. -/
def enqueuedOf (acts : List QAction) : List NvimOnLinesEvent :=
  acts.filterMap fun a =>
    match a with
    | .enqueue ev => some ev
    | _ => none

theorem qRun_concat (acts : List QAction) (s : QueueState) :
    (qRun s acts).applied ++ (qRun s acts).pending ++ (qRun s acts).queue
      = s.applied ++ s.pending ++ s.queue ++ enqueuedOf acts := by
  induction acts generalizing s with
  | nil => simp [qRun, enqueuedOf]
  | cons a acts ih =>
    have hrun : qRun s (a :: acts) = qRun (qStep s a) acts := rfl
    rw [hrun, ih]
    cases a with
    | enqueue ev => simp [qStep, enqueuedOf, List.filterMap_cons]
    | flushStart =>
      simp only [qStep]
      split_ifs with h1 h2 <;>
        simp_all [enqueuedOf, List.filterMap_cons, not_not]
    | applyOne =>
      cases hp : s.pending with
      | nil => simp [qStep, hp, enqueuedOf, List.filterMap_cons]
      | cons ev rest => simp [qStep, hp, enqueuedOf, List.filterMap_cons]

/-- **C7.** The Sync Applier applies every enqueued event at most once
and in arrival order: over every interleaving, the applied events
followed by the captured-but-unapplied events followed by the live
queue equal exactly the enqueue sequence (so nothing is duplicated,
dropped, or reordered); the swap clears the live queue and the
scheduled flag before any captured event is applied; and an event
enqueued while a flush is mid-apply lands in the live queue — not in
the snapshot being applied — and schedules a new flush. -/
theorem c7_queue_once_in_order :
    (∀ acts : List QAction,
      (qRun qInit acts).applied ++ (qRun qInit acts).pending
          ++ (qRun qInit acts).queue
        = enqueuedOf acts)
    ∧ (∀ s : QueueState, s.pending = [] → s.queue ≠ [] →
        qStep s .flushStart
          = { queue := [], scheduled := false, pending := s.queue,
              applied := s.applied })
    ∧ (∀ (s : QueueState) (ev : NvimOnLinesEvent), s.pending ≠ [] →
        (qStep s (.enqueue ev)).pending = s.pending
        ∧ (qStep s (.enqueue ev)).queue = s.queue ++ [ev]
        ∧ (qStep s (.enqueue ev)).scheduled = true) := by
  refine ⟨?_, ?_, ?_⟩
  · intro acts
    simpa [qInit] using qRun_concat acts qInit
  · intro s hp hq
    simp [qStep, hp, hq]
  · intro s ev _
    exact ⟨rfl, rfl, rfl⟩

/-- Witness for C7: the swap on a one-event queue, and an enqueue
arriving while another event is mid-apply. -/
theorem c7_witness :
    qStep ⟨[{ buf := 1, changedtick := 1, firstline := 0, lastline := 1,
              linedata := [] }], true, [], []⟩ .flushStart
      = ⟨[], false,
          [{ buf := 1, changedtick := 1, firstline := 0, lastline := 1,
             linedata := [] }], []⟩
    ∧ (qStep ⟨[], false,
          [{ buf := 1, changedtick := 1, firstline := 0, lastline := 1,
             linedata := [] }], []⟩
        (.enqueue { buf := 1, changedtick := 2, firstline := 1,
                    lastline := 2, linedata := [] })).pending
      = [{ buf := 1, changedtick := 1, firstline := 0, lastline := 1,
           linedata := [] }] :=
  ⟨c7_queue_once_in_order.2.1 _ rfl (by decide),
   ((c7_queue_once_in_order.2.2 _ _ (by decide)).1).trans rfl⟩

/-! ## Malformed `nvim_buf_lines_event` payloads (`src/nvim.ts`)

The notification handler destructures the payload dynamically and then
invokes the registered `onLines` callback, which is the plugin wrapper
of `NeovimBackendPlugin.onload` (`src/nvim.ts` lines 632–640); the
wrapper builds a log record reading `ev.linedata.length` *before*
calling `SyncApplier.enqueue`.  The model below follows the JavaScript
semantics of that chain: array destructuring of a non-iterable value
throws a `TypeError` (strings destructure into one-character strings);
a property read such as `.length` throws only on `undefined` (and
`null`) — on a number it autoboxes and yields `undefined` without
throwing; `join` exists only on arrays. -/

/-- A JavaScript value as it may appear in a notification payload. -/
inductive JVal where
  | num (n : Int)
  | str (s : List Char)
  | arr (l : List JVal)
  | undef

/-- The event record built by the handler before any type checking:
each field is whatever destructuring produced. -/
structure JSLinesEvent where
  buf : JVal
  changedtick : JVal
  firstline : JVal
  lastline : JVal
  linedata : JVal

/-- The queue-facing state the notification handler can affect. -/
structure NotifState where
  queue : List JSLinesEvent
  scheduled : Bool

/-- The elements produced by iterating a JS value in array
destructuring: arrays yield their elements, strings their characters
as one-character strings, anything else throws a `TypeError`. -/
def iterParts : JVal → Option (List JVal)
  | .arr l => some l
  | .str s => some (s.map fun c => .str [c])
  | _ => none

/-- A JavaScript property read such as `.length` throws a `TypeError`
only on `undefined` (and `null`); on numbers, strings and arrays it
yields a value (possibly `undefined`) without throwing. -/
def lengthThrows : JVal → Bool
  | .undef => true
  | _ => false

/-- The `nvim_buf_lines_event` branch of the notification handler in
`NvimHost.start` (`src/nvim.ts` lines 126–148) composed with the
registered `onLines` callback — the plugin wrapper of
`NeovimBackendPlugin.onload` (`src/nvim.ts` lines 632–640) — and
`SyncApplier.enqueue`.  The handler's own debug log reads
`linedata?.length ?? 0` (safe).  The wrapper's log record reads
`ev.linedata.length` *before* calling `sync.enqueue(ev)`: for a
missing `linedata` (destructured to `undefined`) this throws, the
handler's `catch` logs it, and nothing is enqueued.  Otherwise
`enqueue` pushes the event (its own `linedata.length` read can no
longer throw) and sets the scheduled flag.  A non-iterable payload
throws at the destructuring itself, before anything is enqueued. -/
def handleBufLinesNotification (args : JVal) (st : NotifState) : NotifState :=
  match iterParts args with
  | none => st
  | some l =>
    let ev : JSLinesEvent :=
      ⟨l.getD 0 .undef, l.getD 1 .undef, l.getD 2 .undef, l.getD 3 .undef,
        l.getD 4 .undef⟩
    if lengthThrows ev.linedata then st
    else ⟨st.queue ++ [ev], true⟩

/-- JavaScript stringification as used by `Array.prototype.join`:
numbers print, `undefined` becomes empty, nested arrays join with
commas. -/
def jsToString : JVal → List Char
  | .num n => (toString n).toList
  | .str s => s
  | .undef => []
  | .arr l => ((l.attach.map fun v => jsToString v.1).intersperse [',']).flatten
decreasing_by
  have := v.2
  simp only [JVal.arr.sizeOf_spec]
  calc sizeOf v.1 < sizeOf l := List.sizeOf_lt_of_mem this
    _ < 1 + sizeOf l := by omega

/-- `SyncApplier.applyEvent` on a dynamically-typed event, following
the JavaScript control flow of `src/sync.ts`: `linedata.join("\n")` is
computed before the host `replaceRange` call and throws (caught inside
`applyEvent`, document untouched) unless `linedata` is an array;
non-number coordinates give `NaN` positions, on which the host range
computation fails and the bridge reports `false` (document untouched —
the engine only ever sends integer coordinates there). -/
def applyEventJS (doc : Doc) (ev : JSLinesEvent) : Doc :=
  match ev.linedata with
  | .arr l =>
    match ev.firstline, ev.lastline with
    | .num f, .num ll =>
      applyEvent doc
        { buf := 0, changedtick := 0, firstline := f, lastline := ll,
          linedata := l.map jsToString }
    | _, _ => doc
  | _ => doc

/-- A payload of the wrong arity: not iterable at all, or too short, so
the `linedata` position destructures to `undefined`. -/
def discardedPayload (args : JVal) : Bool :=
  match iterParts args with
  | none => true
  | some l =>
    match l.getD 4 .undef with
    | .undef => true
    | _ => false

/-- A payload whose `linedata` position is anything but an array:
wrong arity (it destructures to `undefined`), or a wrong-typed fifth
element such as a number or a string. -/
def linedataNotArr (args : JVal) : Bool :=
  match iterParts args with
  | none => true
  | some l =>
    match l.getD 4 .undef with
    | .arr _ => false
    | _ => true

/-- An event whose `linedata` field is not an array applies as a
no-op: `linedata.join` throws a `TypeError`, caught inside
`applyEvent`. -/
theorem applyEventJS_of_linedata_not_arr (doc : Doc) (ev : JSLinesEvent)
    (h : ∀ l, ev.linedata ≠ JVal.arr l) : applyEventJS doc ev = doc := by
  rcases hld : ev.linedata with n | s | l | _
  · simp [applyEventJS, hld]
  · simp [applyEventJS, hld]
  · exact absurd hld (h l)
  · simp [applyEventJS, hld]

/-- **C8 counterexample.** The right-arity payload `[1, 2, 0, 1, 7]`
has a wrong-typed `linedata` (the number `7`): the `onLines` wrapper's
`ev.linedata.length` read does not throw (numbers autobox; the read
yields `undefined`), so the event is enqueued and a flush is
scheduled — an event from the malformed notification *does* remain
pending, so the notification is not "treated as if it had not
arrived". -/
theorem c8_counterexample :
    handleBufLinesNotification
        (.arr [.num 1, .num 2, .num 0, .num 1, .num 7]) ⟨[], false⟩
      = ⟨[⟨.num 1, .num 2, .num 0, .num 1, .num 7⟩], true⟩
    ∧ ([(⟨.num 1, .num 2, .num 0, .num 1, .num 7⟩ : JSLinesEvent)]
        : List JSLinesEvent) ≠ [] :=
  ⟨rfl, by simp⟩

/-- **C8 (amended).** Every malformed `nvim_buf_lines_event` payload
is caught and logged without crashing the session (the handler is
total) and never modifies the host document.  A wrong-arity payload
(non-iterable, or with `linedata` destructuring to `undefined`) is
discarded before anything is enqueued — for it the notification really
is as if it had not arrived.  A payload whose `linedata` is some other
non-array value may enqueue one event, which remains pending; its
later application throws at `linedata.join`, is caught, and leaves
every document unchanged. -/
theorem c8_malformed_harmless (args : JVal) (st : NotifState) :
    (discardedPayload args = true →
      handleBufLinesNotification args st = st)
    ∧ (linedataNotArr args = true →
      handleBufLinesNotification args st = st
      ∨ ∃ ev, handleBufLinesNotification args st = ⟨st.queue ++ [ev], true⟩
          ∧ ∀ doc : Doc, applyEventJS doc ev = doc) := by
  constructor
  · intro hd
    cases hip : iterParts args with
    | none => simp [handleBufLinesNotification, hip]
    | some l =>
      simp only [discardedPayload, hip, List.getD_eq_getElem?_getD] at hd
      cases h4 : l[4]?.getD JVal.undef with
      | undef =>
        simp [handleBufLinesNotification, hip, List.getD_eq_getElem?_getD,
          h4, lengthThrows]
      | num n => rw [h4] at hd; exact absurd hd (by simp)
      | str s => rw [h4] at hd; exact absurd hd (by simp)
      | arr m => rw [h4] at hd; exact absurd hd (by simp)
  · intro hn
    cases hip : iterParts args with
    | none => exact Or.inl (by simp [handleBufLinesNotification, hip])
    | some l =>
      simp only [linedataNotArr, hip, List.getD_eq_getElem?_getD] at hn
      cases h4 : l[4]?.getD JVal.undef with
      | undef =>
        exact Or.inl (by
          simp [handleBufLinesNotification, hip, List.getD_eq_getElem?_getD,
            h4, lengthThrows])
      | num n =>
        refine Or.inr ⟨⟨l.getD 0 .undef, l.getD 1 .undef, l.getD 2 .undef,
            l.getD 3 .undef, .num n⟩, ?_, ?_⟩
        · simp [handleBufLinesNotification, hip, List.getD_eq_getElem?_getD,
            h4, lengthThrows]
        · intro doc
          apply applyEventJS_of_linedata_not_arr
          intro m hm
          exact JVal.noConfusion hm
      | str s =>
        refine Or.inr ⟨⟨l.getD 0 .undef, l.getD 1 .undef, l.getD 2 .undef,
            l.getD 3 .undef, .str s⟩, ?_, ?_⟩
        · simp [handleBufLinesNotification, hip, List.getD_eq_getElem?_getD,
            h4, lengthThrows]
        · intro doc
          apply applyEventJS_of_linedata_not_arr
          intro m hm
          exact JVal.noConfusion hm
      | arr m => rw [h4] at hn; exact absurd hn (by simp)

/-- Witness for C8 (amended): the arity-4 payload `[1, 2, 0, 1]` is
discarded outright, and the wrong-typed payload `[1, 2, 0, 1, 7]` of
the counterexample is at worst enqueued as a harmless no-op. -/
theorem c8_witness :
    (handleBufLinesNotification
        (.arr [.num 1, .num 2, .num 0, .num 1]) ⟨[], false⟩
      = (⟨[], false⟩ : NotifState))
    ∧ (handleBufLinesNotification
          (.arr [.num 1, .num 2, .num 0, .num 1, .num 7]) ⟨[], false⟩
        = (⟨[], false⟩ : NotifState)
      ∨ ∃ ev, handleBufLinesNotification
          (.arr [.num 1, .num 2, .num 0, .num 1, .num 7]) ⟨[], false⟩
        = ⟨(⟨[], false⟩ : NotifState).queue ++ [ev], true⟩
          ∧ ∀ doc : Doc, applyEventJS doc ev = doc) :=
  ⟨(c8_malformed_harmless (.arr [.num 1, .num 2, .num 0, .num 1])
      ⟨[], false⟩).1 (by decide),
   (c8_malformed_harmless (.arr [.num 1, .num 2, .num 0, .num 1, .num 7])
      ⟨[], false⟩).2 (by decide)⟩

/-! ## The throttled fallback-poll paths (`src/nvim.ts`)

Discrete-event models of `handleKeyDrivenSync` (keystroke-gated,
33 ms `setTimeout`) and `maybeScheduleFallbackSync` (mode-gated, 50 ms
timestamp throttle with a 0 ms `setTimeout`).  Trigger times are
processed in order; a scheduled callback fires as soon as its time is
reached (the earliest JavaScript would run it, which is the worst case
for throttling).  The oracles `edP` (is an active editor present at a
fire time) and `rOk` (does the buffer-fetch RPC succeed) model the
environment; the buffer fetch is attempted whenever an editor is
present, and — as in the code's `finally` — the throttle flag is reset
whether or not the RPC succeeds. -/

/-- State of `handleKeyDrivenSync`: the `inputSyncThrottled` flag, the
pending callback's fire time, the times of attempted buffer fetches,
and those fetch times whose RPC failed (logged and swallowed). -/
structure KeySyncState where
  throttled : Bool
  cb : Option Nat
  fetches : List Nat
  failures : List Nat
deriving DecidableEq, Repr

/-- The `setTimeout` callback body of `handleKeyDrivenSync` firing: if
an editor is present the buffer text (and cursor) are fetched; the
`finally` clause clears `inputSyncThrottled` unconditionally. -/
def keyFire (edP rOk : Nat → Bool) (s : KeySyncState) : KeySyncState :=
  match s.cb with
  | none => s
  | some t =>
    { throttled := false, cb := none,
      fetches := if edP t then s.fetches ++ [t] else s.fetches,
      failures :=
        if edP t && !(rOk t) then s.failures ++ [t] else s.failures }

/-- One `obsidian-neovim-input` trigger of `handleKeyDrivenSync` at
time `t`: a callback due by `t` fires first; then, unless throttled,
the flag is set and a callback is scheduled 33 ms out. -/
def keyStep (edP rOk : Nat → Bool) (s : KeySyncState) (t : Nat) :
    KeySyncState :=
  let s1 :=
    match s.cb with
    | some c => if c ≤ t then keyFire edP rOk s else s
    | none => s
  if s1.throttled then s1
  else { s1 with throttled := true, cb := some (t + 33) }

/-- Run the keystroke-gated path over a time-ordered trigger sequence;
any still-pending callback fires at the end. -/
def keyRun (edP rOk : Nat → Bool) (ts : List Nat) : KeySyncState :=
  keyFire edP rOk (ts.foldl (keyStep edP rOk) ⟨false, none, [], []⟩)

/-- Invariant of the keystroke-gated throttle: fetches are at least
33 ms apart, the flag mirrors the pending callback, every fetch
precedes a pending callback by at least the interval, and with no
callback pending all fetches are in the past (`≤ low`). -/
def KeyInv (s : KeySyncState) (low : Nat) : Prop :=
  s.fetches.Pairwise (fun a b => a + 33 ≤ b)
  ∧ s.throttled = s.cb.isSome
  ∧ (∀ c, s.cb = some c → ∀ f ∈ s.fetches, f + 33 ≤ c)
  ∧ (s.cb = none → ∀ f ∈ s.fetches, f ≤ low)

theorem keyFire_fetches (edP rOk : Nat → Bool) (s : KeySyncState)
    (c : Nat) (hc : s.cb = some c)
    (hpw : s.fetches.Pairwise (fun a b => a + 33 ≤ b))
    (hgap : ∀ f ∈ s.fetches, f + 33 ≤ c) :
    (keyFire edP rOk s).throttled = false
    ∧ (keyFire edP rOk s).cb = none
    ∧ (keyFire edP rOk s).fetches.Pairwise (fun a b => a + 33 ≤ b)
    ∧ (∀ f ∈ (keyFire edP rOk s).fetches, f ≤ c) := by
  refine ⟨?_, ?_, ?_, ?_⟩
  · simp only [keyFire, hc]
  · simp only [keyFire, hc]
  · simp only [keyFire, hc]
    by_cases he : edP c = true
    · rw [if_pos he, List.pairwise_append]
      exact ⟨hpw, List.pairwise_singleton _ _,
        fun a ha b hb => by
          rw [List.mem_singleton] at hb
          subst hb
          exact hgap a ha⟩
    · rw [if_neg he]
      exact hpw
  · simp only [keyFire, hc]
    intro f hf
    by_cases he : edP c = true
    · rw [if_pos he, List.mem_append, List.mem_singleton] at hf
      rcases hf with hf | rfl
      · have := hgap f hf; omega
      · exact le_refl _
    · rw [if_neg he] at hf
      have := hgap f hf; omega

theorem keyStep_inv (edP rOk : Nat → Bool) (s : KeySyncState)
    (t low : Nat) (hInv : KeyInv s low) (hlow : low ≤ t) :
    KeyInv (keyStep edP rOk s t) t := by
  obtain ⟨hpw, hth, hgap, hpast⟩ := hInv
  cases hc : s.cb with
  | none =>
    have hth' : s.throttled = false := by rw [hth, hc]; rfl
    have hstep : keyStep edP rOk s t
        = { s with throttled := true, cb := some (t + 33) } := by
      simp [keyStep, hc, hth']
    rw [hstep]
    refine ⟨hpw, rfl, ?_, by simp⟩
    intro c hcc f hf
    have h1 := hpast hc f hf
    have h2 : t + 33 = c := Option.some.inj hcc
    omega
  | some c =>
    by_cases hct : c ≤ t
    · obtain ⟨hf1, hf2, hf3, hf4⟩ := keyFire_fetches edP rOk s c hc hpw
        (hgap c hc)
      have hstep : keyStep edP rOk s t
          = ⟨true, some (t + 33), (keyFire edP rOk s).fetches,
              (keyFire edP rOk s).failures⟩ := by
        simp [keyStep, hc, hct, hf1]
      rw [hstep]
      refine ⟨hf3, rfl, ?_, by simp⟩
      intro c2 hcc f hf
      have h1 := hf4 f hf
      have h2 : t + 33 = c2 := Option.some.inj hcc
      omega
    · have hth' : s.throttled = true := by rw [hth, hc]; rfl
      have hstep : keyStep edP rOk s t = s := by
        simp [keyStep, hc, hct, hth']
      rw [hstep]
      refine ⟨hpw, hth, hgap, ?_⟩
      intro hnone
      rw [hc] at hnone
      exact absurd hnone (by simp)

theorem keyFoldl_inv (edP rOk : Nat → Bool) :
    ∀ (ts : List Nat) (s : KeySyncState) (low : Nat),
      KeyInv s low → (∀ t ∈ ts, low ≤ t) → ts.Sorted (· ≤ ·) →
      ∃ low2, KeyInv (ts.foldl (keyStep edP rOk) s) low2 := by
  intro ts
  induction ts with
  | nil => exact fun s low h _ _ => ⟨low, h⟩
  | cons t rest ih =>
    intro s low hInv hbound hsorted
    have hstep := keyStep_inv edP rOk s t low hInv (hbound t (by simp))
    rw [List.sorted_cons] at hsorted
    exact ih (keyStep edP rOk s t) t hstep hsorted.1 hsorted.2

theorem keyRun_spec (edP rOk : Nat → Bool) (ts : List Nat)
    (hsorted : ts.Sorted (· ≤ ·)) :
    (keyRun edP rOk ts).fetches.Pairwise (fun a b => a + 33 ≤ b)
    ∧ (keyRun edP rOk ts).throttled = false
    ∧ (keyRun edP rOk ts).cb = none := by
  obtain ⟨low2, hpw, hth, hgap, hpast⟩ :=
    keyFoldl_inv edP rOk ts ⟨false, none, [], []⟩ 0
      ⟨List.Pairwise.nil, rfl, by simp, by simp⟩ (fun _ _ => Nat.zero_le _)
      hsorted
  unfold keyRun
  cases hc : (ts.foldl (keyStep edP rOk) ⟨false, none, [], []⟩).cb with
  | none =>
    have hth' : (ts.foldl (keyStep edP rOk) ⟨false, none, [], []⟩).throttled
        = false := by rw [hth, hc]; rfl
    have hfire : keyFire edP rOk
        (ts.foldl (keyStep edP rOk) ⟨false, none, [], []⟩)
        = ts.foldl (keyStep edP rOk) ⟨false, none, [], []⟩ := by
      simp [keyFire, hc]
    rw [hfire]
    exact ⟨hpw, hth', hc⟩
  | some c =>
    obtain ⟨h1, h2, h3, _⟩ :=
      keyFire_fetches edP rOk _ c hc hpw (hgap c hc)
    exact ⟨h3, h1, h2⟩

/-- State of `maybeScheduleFallbackSync`: the `pendingFallback` flag,
`lastFallbackSyncTs`, the pending 0 ms callback, attempted fetches and
RPC failures. -/
structure ModeSyncState where
  pendingFallback : Bool
  lastFallbackSyncTs : Nat
  cb : Option Nat
  fetches : List Nat
  failures : List Nat
deriving DecidableEq, Repr

/-- The `setTimeout(…, 0)` callback of `maybeScheduleFallbackSync`
firing: the buffer is fetched when an editor is present, and the
`finally` clause records `Date.now()` into `lastFallbackSyncTs` and
clears `pendingFallback` whether or not the fetch ran or succeeded. -/
def modeFire (edP rOk : Nat → Bool) (s : ModeSyncState) : ModeSyncState :=
  match s.cb with
  | none => s
  | some t =>
    { pendingFallback := false, lastFallbackSyncTs := t, cb := none,
      fetches := if edP t then s.fetches ++ [t] else s.fetches,
      failures :=
        if edP t && !(rOk t) then s.failures ++ [t] else s.failures }

/-- One redraw-notification trigger of `maybeScheduleFallbackSync` at
time `tr.1` with `tr.2` recording whether the engine's reported mode is
`insert`: a callback due by now fires first; a non-insert mode is a
no-op; otherwise, unless `pendingFallback` is set or fewer than 50 ms
passed since `lastFallbackSyncTs`, the flag is set and the 0 ms
callback scheduled. -/
def modeStep (edP rOk : Nat → Bool) (s : ModeSyncState) (tr : Nat × Bool) :
    ModeSyncState :=
  let s1 :=
    match s.cb with
    | some c => if c ≤ tr.1 then modeFire edP rOk s else s
    | none => s
  if tr.2 = false then s1
  else if s1.pendingFallback = true ∨ tr.1 - s1.lastFallbackSyncTs < 50 then s1
  else { s1 with pendingFallback := true, cb := some tr.1 }

/-- Run the mode-gated path over a trigger sequence, firing any
still-pending callback at the end.  `lastFallbackSyncTs` starts at 0,
as the plugin field does. -/
def modeRun (edP rOk : Nat → Bool) (trs : List (Nat × Bool)) :
    ModeSyncState :=
  modeFire edP rOk (trs.foldl (modeStep edP rOk) ⟨false, 0, none, [], []⟩)

/-- Invariant of the mode-gated throttle. -/
def ModeInv (s : ModeSyncState) : Prop :=
  s.fetches.Pairwise (fun a b => a + 50 ≤ b)
  ∧ s.pendingFallback = s.cb.isSome
  ∧ (∀ c, s.cb = some c → ∀ f ∈ s.fetches, f + 50 ≤ c)
  ∧ (s.cb = none → ∀ f ∈ s.fetches, f ≤ s.lastFallbackSyncTs)

theorem modeFire_fetches (edP rOk : Nat → Bool) (s : ModeSyncState)
    (c : Nat) (hc : s.cb = some c)
    (hpw : s.fetches.Pairwise (fun a b => a + 50 ≤ b))
    (hgap : ∀ f ∈ s.fetches, f + 50 ≤ c) :
    (modeFire edP rOk s).pendingFallback = false
    ∧ (modeFire edP rOk s).cb = none
    ∧ (modeFire edP rOk s).lastFallbackSyncTs = c
    ∧ (modeFire edP rOk s).fetches.Pairwise (fun a b => a + 50 ≤ b)
    ∧ (∀ f ∈ (modeFire edP rOk s).fetches, f ≤ c) := by
  refine ⟨?_, ?_, ?_, ?_, ?_⟩
  · simp only [modeFire, hc]
  · simp only [modeFire, hc]
  · simp only [modeFire, hc]
  · simp only [modeFire, hc]
    by_cases he : edP c = true
    · rw [if_pos he, List.pairwise_append]
      exact ⟨hpw, List.pairwise_singleton _ _,
        fun a ha b hb => by
          rw [List.mem_singleton] at hb
          subst hb
          exact hgap a ha⟩
    · rw [if_neg he]
      exact hpw
  · simp only [modeFire, hc]
    intro f hf
    by_cases he : edP c = true
    · rw [if_pos he, List.mem_append, List.mem_singleton] at hf
      rcases hf with hf | rfl
      · have := hgap f hf; omega
      · exact le_refl _
    · rw [if_neg he] at hf
      have := hgap f hf; omega

theorem modeStep_inv (edP rOk : Nat → Bool) (s : ModeSyncState)
    (tr : Nat × Bool) (hInv : ModeInv s) :
    ModeInv (modeStep edP rOk s tr) := by
  obtain ⟨hpw, hth, hgap, hpast⟩ := hInv
  cases hc : s.cb with
  | none =>
    have hs1 : modeStep edP rOk s tr
        = if tr.2 = false then s
          else if s.pendingFallback = true
              ∨ tr.1 - s.lastFallbackSyncTs < 50 then s
          else { s with pendingFallback := true, cb := some tr.1 } := by
      simp [modeStep, hc]
    rw [hs1]
    by_cases hmode : tr.2 = false
    · rw [if_pos hmode]; exact ⟨hpw, hth, hgap, hpast⟩
    · rw [if_neg hmode]
      by_cases hrej : s.pendingFallback = true
          ∨ tr.1 - s.lastFallbackSyncTs < 50
      · rw [if_pos hrej]; exact ⟨hpw, hth, hgap, hpast⟩
      · rw [if_neg hrej]
        push_neg at hrej
        obtain ⟨hpf, hts⟩ := hrej
        have hall : ∀ f ∈ s.fetches, f ≤ s.lastFallbackSyncTs := hpast hc
        refine ⟨hpw, rfl, ?_, by simp⟩
        intro c2 hc2 f hf
        have hceq : tr.1 = c2 := Option.some.inj hc2
        have h1 := hall f hf
        omega
  | some c =>
    by_cases hct : c ≤ tr.1
    · obtain ⟨h1, h2, h3, h4, h5⟩ := modeFire_fetches edP rOk s c hc hpw
        (hgap c hc)
      have hs1 : modeStep edP rOk s tr
          = if tr.2 = false then modeFire edP rOk s
            else if (modeFire edP rOk s).pendingFallback = true
                ∨ tr.1 - (modeFire edP rOk s).lastFallbackSyncTs < 50 then
              modeFire edP rOk s
            else ⟨true, (modeFire edP rOk s).lastFallbackSyncTs, some tr.1,
                  (modeFire edP rOk s).fetches,
                  (modeFire edP rOk s).failures⟩ := by
        simp [modeStep, hc, hct]
      have hfireInv : ModeInv (modeFire edP rOk s) := by
        refine ⟨h4, by rw [h1, h2]; rfl, ?_, ?_⟩
        · intro c2 hc2
          rw [h2] at hc2
          exact absurd hc2 (by simp)
        · intro _
          rw [h3]
          exact h5
      rw [hs1]
      by_cases hmode : tr.2 = false
      · rw [if_pos hmode]; exact hfireInv
      · rw [if_neg hmode]
        by_cases hrej : (modeFire edP rOk s).pendingFallback = true
            ∨ tr.1 - (modeFire edP rOk s).lastFallbackSyncTs < 50
        · rw [if_pos hrej]; exact hfireInv
        · rw [if_neg hrej]
          push_neg at hrej
          obtain ⟨hpf, hts⟩ := hrej
          rw [h3] at hts
          refine ⟨h4, rfl, ?_, by simp⟩
          intro c2 hc2 f hf
          have hceq : tr.1 = c2 := Option.some.inj hc2
          have h6 := h5 f hf
          omega
    · have hpf : s.pendingFallback = true := by rw [hth, hc]; rfl
      have hs1 : modeStep edP rOk s tr = s := by
        simp [modeStep, hc, hct, hpf]
      rw [hs1]
      exact ⟨hpw, hth, hgap, hpast⟩

theorem modeRun_spec (edP rOk : Nat → Bool) (trs : List (Nat × Bool)) :
    (modeRun edP rOk trs).fetches.Pairwise (fun a b => a + 50 ≤ b)
    ∧ (modeRun edP rOk trs).pendingFallback = false
    ∧ (modeRun edP rOk trs).cb = none := by
  have hInv : ModeInv (trs.foldl (modeStep edP rOk) ⟨false, 0, none, [], []⟩) := by
    induction trs using List.reverseRecOn with
    | nil => exact ⟨List.Pairwise.nil, rfl, by simp, by simp⟩
    | append_singleton trs tr ih =>
      rw [List.foldl_append, List.foldl_cons, List.foldl_nil]
      exact modeStep_inv edP rOk _ tr ih
  obtain ⟨hpw, hth, hgap, hpast⟩ := hInv
  unfold modeRun
  cases hc : (trs.foldl (modeStep edP rOk) ⟨false, 0, none, [], []⟩).cb with
  | none =>
    have hth' : (trs.foldl (modeStep edP rOk)
        ⟨false, 0, none, [], []⟩).pendingFallback = false := by
      rw [hth, hc]; rfl
    have hfire : modeFire edP rOk
        (trs.foldl (modeStep edP rOk) ⟨false, 0, none, [], []⟩)
        = trs.foldl (modeStep edP rOk) ⟨false, 0, none, [], []⟩ := by
      simp [modeFire, hc]
    rw [hfire]
    exact ⟨hpw, hth', hc⟩
  | some c =>
    obtain ⟨h1, h2, _, h4, _⟩ :=
      modeFire_fetches edP rOk _ c hc hpw (hgap c hc)
    exact ⟨h4, h1, h2⟩

/-- **C9.** Each fallback-poll path attempts at most one buffer fetch
per its configured minimum interval — consecutive fetches of the
keystroke-gated path are ≥ 33 ms apart, of the mode-gated path
≥ 50 ms apart — no matter how densely it is triggered, for every
editor-presence and RPC-success oracle (in particular when every RPC
fails); and after all scheduled callbacks have run the throttle flags
(`inputSyncThrottled`, `pendingFallback`) are clear again, so the
throttle never wedges shut. -/
theorem c9_throttle :
    (∀ (edP rOk : Nat → Bool) (ts : List Nat), ts.Sorted (· ≤ ·) →
      (keyRun edP rOk ts).fetches.Pairwise (fun a b => a + 33 ≤ b)
      ∧ (keyRun edP rOk ts).throttled = false
      ∧ (keyRun edP rOk ts).cb = none)
    ∧ (∀ (edP rOk : Nat → Bool) (trs : List (Nat × Bool)),
      (modeRun edP rOk trs).fetches.Pairwise (fun a b => a + 50 ≤ b)
      ∧ (modeRun edP rOk trs).pendingFallback = false
      ∧ (modeRun edP rOk trs).cb = none) :=
  ⟨keyRun_spec, modeRun_spec⟩

/-- Witness for C9: five keystroke triggers in a 100 ms burst with a
failing RPC still produce ≥ 33 ms-spaced fetches and leave the
throttle clear. -/
theorem c9_witness :
    ([0, 10, 20, 40, 100] : List Nat).Sorted (· ≤ ·)
    ∧ ((keyRun (fun _ => true) (fun _ => false) [0, 10, 20, 40, 100]).fetches.Pairwise
        (fun a b => a + 33 ≤ b)
      ∧ (keyRun (fun _ => true) (fun _ => false) [0, 10, 20, 40, 100]).throttled
          = false
      ∧ (keyRun (fun _ => true) (fun _ => false) [0, 10, 20, 40, 100]).cb
          = none) :=
  ⟨by decide,
   c9_throttle.1 (fun _ => true) (fun _ => false) [0, 10, 20, 40, 100]
     (by decide)⟩

end ObsNvim
